import Mathlib

set_option maxRecDepth 8192
set_option exponentiation.threshold 1100

/-!
Shallow embedding of the interaction core of dhzdhd/curl-rs (src/main.rs,
src/models.rs): the FocusMode cycle (InputMode), the payload-tab
navigation (State), the URI/JSON validators (Editor), the text buffer
(TextArea, embedding the tui_textarea dependency's behaviour for the
modifier-free key mappings used by the application), and the key-event
loop (App.run).  Theorems at the end settle the frozen claims C1..C10.
-/

namespace CurlRs

/-- Embeds the InputMode enum of src/main.rs lines 22-27 (identical copy in
src/models.rs).  The Rust enum carries explicit discriminants 0, 1, 2. -/
inductive InputMode
  | UriEditing
  | Normal
  | PayloadEditing
deriving DecidableEq, Repr

/-- Embeds InputMode::as_int: the enum's integer discriminant. -/
def InputMode.as_int : InputMode → Nat
  | .UriEditing => 0
  | .Normal => 1
  | .PayloadEditing => 2

/-- Embeds InputMode::to_enum(&self, num): discriminant back to the enum,
with the wildcard arm mapping any other number to Normal.  The self
argument is unused, as in the source. -/
def InputMode.to_enum (_ : InputMode) (num : Nat) : InputMode :=
  match num with
  | 0 => .UriEditing
  | 1 => .Normal
  | 2 => .PayloadEditing
  | _ => .Normal

/-- Embeds InputMode::next: to_enum((as_int + 1) % 3). -/
def InputMode.next (m : InputMode) : InputMode :=
  m.to_enum ((m.as_int + 1) % 3)

/-- Embeds InputMode::previous: to_enum((as_int + 2) % 3). -/
def InputMode.previous (m : InputMode) : InputMode :=
  m.to_enum ((m.as_int + 2) % 3)

/-- Embeds the State struct of src/main.rs lines 57-62 (minus the unused
main_index twin field, kept here for field-for-field fidelity). -/
structure State where
  payload_titles : List String
  req_tab_index : Nat
  main_index : Nat
  input_mode : InputMode
deriving DecidableEq, Repr

/-- Embeds State::new: titles Headers/Body, both indices 0, UriEditing. -/
def State.new : State :=
  { payload_titles := ["Headers", "Body"]
    req_tab_index := 0
    main_index := 0
    input_mode := .UriEditing }

/-- Embeds State::next_payload: req_tab_index := (req_tab_index + 1) %
payload_titles.len(). -/
def State.next_payload (s : State) : State :=
  { s with req_tab_index := (s.req_tab_index + 1) % s.payload_titles.length }

/-- Embeds State::previous_payload: decrement when positive, else wrap to
payload_titles.len() - 1. -/
def State.previous_payload (s : State) : State :=
  if s.req_tab_index > 0 then
    { s with req_tab_index := s.req_tab_index - 1 }
  else
    { s with req_tab_index := s.payload_titles.length - 1 }

/-- Whitespace per the Unicode White_Space class, which is what both
Rust's str::trim and the regex crate's backslash-s class use.  The text
snapshot is a list of chars (Unicode scalar values), matching Rust str. -/
def rsWhitespace (c : Char) : Bool :=
  let n := c.toNat
  decide ((0x9 ≤ n ∧ n ≤ 0xD) ∨ n = 0x20 ∨ n = 0x85 ∨ n = 0xA0 ∨ n = 0x1680
    ∨ (0x2000 ≤ n ∧ n ≤ 0x200A) ∨ n = 0x2028 ∨ n = 0x2029 ∨ n = 0x202F
    ∨ n = 0x205F ∨ n = 0x3000)

/-- The first character class of the URL regex of Editor::validate_uri
(src/main.rs line 105): not whitespace and not one of slash, dollar,
dot, question mark, hash. -/
def hostFirstOk (c : Char) : Bool :=
  !rsWhitespace c && decide (c ∉ (['/', '$', '.', '?', '#'] : List Char))

/-- How the URL regex matches the text after the scheme-and-separator:
one character from the class of hostFirstOk, then one arbitrary
character other than a line feed (the regex dot, which in the regex
crate does not match a newline by default), then any number of
non-whitespace characters, anchored at the end of the text. -/
def uriTailOk : List Char → Bool
  | c1 :: c2 :: r => hostFirstOk c1 && (c2 != '\n') && r.all (fun c => !rsWhitespace c)
  | _ => false

/-- Anchored match of one scheme alternative followed by the tail
pattern: the scheme string (with the colon-slash-slash separator) must
be an exact initial segment of the text. -/
def matchScheme (p : String) (s : List Char) : Bool :=
  if s.take p.toList.length = p.toList then uriTailOk (s.drop p.toList.length) else false

/-- The full anchored regex of Editor::validate_uri: scheme http, https
or ftp, then the separator, then the tail pattern. -/
def uriRegexMatch (s : List Char) : Bool :=
  matchScheme "http://" s || matchScheme "https://" s || matchScheme "ftp://" s

/-- Embeds Editor::validate_uri (src/main.rs lines 104-109) as a function
of the text snapshot: the trimmed text is non-empty (equivalently, not
every character is whitespace) and the regex matches the full text. -/
def validate_uri (s : List Char) : Bool :=
  !(s.all rsWhitespace) && uriRegexMatch s

/-- Declarative statement of the shape actually accepted by the URL
regex, used by the amended claim C1: the text is a scheme alternative
followed by the separator, then a first character that is neither
whitespace nor one of slash, dollar, dot, question mark, hash, then a
second character that is not a line feed, then only non-whitespace
characters. -/
def UriPattern (s : List Char) : Prop :=
  ∃ p t, (p = "http://" ∨ p = "https://" ∨ p = "ftp://")
    ∧ s = p.toList ++ t
    ∧ ∃ c1 c2 r, t = c1 :: c2 :: r
        ∧ rsWhitespace c1 = false
        ∧ c1 ∉ (['/', '$', '.', '?', '#'] : List Char)
        ∧ c2 ≠ '\n'
        ∧ ∀ c ∈ r, rsWhitespace c = false

/-- JSON insignificant whitespace as recognised by serde_json: space,
tab, line feed, carriage return. -/
def jsonWs (c : Char) : Bool :=
  c = ' ' || c = '\t' || c = '\n' || c = '\r'

/-- Skip a run of JSON whitespace. -/
def skipWs : List Char → List Char
  | c :: r => if jsonWs c then skipWs r else c :: r
  | [] => []

/-- Value of one hexadecimal digit, for unicode escapes in strings. -/
def hexVal (c : Char) : Option Nat :=
  if '0' ≤ c ∧ c ≤ '9' then some (c.toNat - '0'.toNat)
  else if 'a' ≤ c ∧ c ≤ 'f' then some (c.toNat - 'a'.toNat + 10)
  else if 'A' ≤ c ∧ c ≤ 'F' then some (c.toNat - 'A'.toNat + 10)
  else none

/-- Parse the rest of a JSON string after the opening quote, per
serde_json: a closing quote ends it; escapes are the eight single-char
escapes and backslash-u with four hex digits, where a leading surrogate
must be followed by an escaped trailing surrogate and a lone trailing
surrogate is an error; raw control characters below 0x20 are errors.
Returns the remaining input after the closing quote.  The fuel argument
only bounds recursion and is called with more fuel than characters. -/
def pString : Nat → List Char → Option (List Char)
  | 0, _ => none
  | fuel + 1, input =>
    match input with
    | [] => none
    | '"' :: r => some r
    | '\\' :: e :: r =>
      if (['"', '\\', '/', 'b', 'f', 'n', 'r', 't'] : List Char).contains e then
        pString fuel r
      else if e = 'u' then
        match r with
        | h1 :: h2 :: h3 :: h4 :: r2 =>
          match hexVal h1, hexVal h2, hexVal h3, hexVal h4 with
          | some a, some b, some c, some d =>
            let n := ((a * 16 + b) * 16 + c) * 16 + d
            if 0xD800 ≤ n ∧ n ≤ 0xDBFF then
              match r2 with
              | '\\' :: 'u' :: g1 :: g2 :: g3 :: g4 :: r3 =>
                match hexVal g1, hexVal g2, hexVal g3, hexVal g4 with
                | some w, some x, some y, some z =>
                  let m := ((w * 16 + x) * 16 + y) * 16 + z
                  if 0xDC00 ≤ m ∧ m ≤ 0xDFFF then pString fuel r3 else none
                | _, _, _, _ => none
              | _ => none
            else if 0xDC00 ≤ n ∧ n ≤ 0xDFFF then none
            else pString fuel r2
          | _, _, _, _ => none
        | _ => none
      else none
    | c :: r => if c.toNat < 0x20 then none else pString fuel r

/-- Value of a decimal digit string. -/
def natOfDigits (s : List Char) : Nat :=
  s.foldl (fun acc c => acc * 10 + (c.toNat - '0'.toNat)) 0

/-- Integer part of a JSON number per serde_json: a single zero (not
followed by another digit), or a nonzero digit followed by digits.
Returns the digits and the remainder. -/
def pIntDigits : List Char → Option (List Char × List Char)
  | '0' :: r =>
    match r with
    | d :: _ => if d.isDigit then none else some (['0'], r)
    | [] => some (['0'], [])
  | c :: r =>
    if c.isDigit then
      some ((c :: r).takeWhile Char.isDigit, (c :: r).dropWhile Char.isDigit)
    else none
  | [] => none

/-- Optional fraction part: a dot must be followed by at least one
digit.  Returns the fraction digits (empty when absent) and the
remainder. -/
def pFracDigits : List Char → Option (List Char × List Char)
  | '.' :: r =>
    match r with
    | d :: _ =>
      if d.isDigit then some (r.takeWhile Char.isDigit, r.dropWhile Char.isDigit) else none
    | [] => none
  | s => some ([], s)

/-- Digits of an exponent: at least one digit; returns the value and
the remainder. -/
def pExpDigitsVal : List Char → Option (Nat × List Char)
  | d :: r =>
    if d.isDigit then
      some (natOfDigits ((d :: r).takeWhile Char.isDigit), (d :: r).dropWhile Char.isDigit)
    else none
  | [] => none

/-- Optional exponent part: e or E, an optional sign, then digits;
signed value, zero when absent. -/
def pExpValue : List Char → Option (Int × List Char)
  | 'e' :: '+' :: r => (pExpDigitsVal r).map (fun p => ((p.1 : Int), p.2))
  | 'e' :: '-' :: r => (pExpDigitsVal r).map (fun p => (-(p.1 : Int), p.2))
  | 'e' :: r => (pExpDigitsVal r).map (fun p => ((p.1 : Int), p.2))
  | 'E' :: '+' :: r => (pExpDigitsVal r).map (fun p => ((p.1 : Int), p.2))
  | 'E' :: '-' :: r => (pExpDigitsVal r).map (fun p => (-(p.1 : Int), p.2))
  | 'E' :: r => (pExpDigitsVal r).map (fun p => ((p.1 : Int), p.2))
  | s => some (0, s)

/-- A JSON numeric literal starting at its first digit (a leading minus
sign is consumed by the caller): integer part, optional fraction,
optional exponent.  Returns the decimal mantissa (integer and fraction
digits as one number), the base-ten exponent of the value (explicit
exponent minus the number of fraction digits), and the remainder. -/
def pNumberParts (s : List Char) : Option (Nat × Int × List Char) :=
  match pIntDigits s with
  | none => none
  | some (ints, r1) =>
    match pFracDigits r1 with
    | none => none
    | some (fracs, r2) =>
      match pExpValue r2 with
      | none => none
      | some (ex, r3) =>
        some (natOfDigits (ints ++ fracs), ex - (fracs.length : Int), r3)

/-- The overflow threshold of doubles under round-to-nearest-even: a
decimal value whose magnitude is at least 2 to the 1024 minus 2 to the
970 rounds to infinity. -/
def f64OverflowBound : Nat := 2 ^ 1024 - 2 ^ 970

/-- Whether the literal with mantissa m and base-ten exponent e
overflows the finite double range, by exact integer comparison of the
magnitude against the rounding threshold. -/
def jsonNumOverflows (m : Nat) (e : Int) : Bool :=
  if 0 ≤ e then decide (f64OverflowBound ≤ m * 10 ^ e.toNat)
  else decide (f64OverflowBound * 10 ^ (-e).toNat ≤ m)

/-- serde_json's number parse: the literal grammar plus the
NumberOutOfRange check — a literal whose double value is not finite is
a parse error.  serde_json computes the double with its power-of-ten
float loop; the embedding decides overflow by the exact decimal value
against the double rounding threshold. -/
def pNumber (s : List Char) : Option (List Char) :=
  match pNumberParts s with
  | some (m, e, r) => if jsonNumOverflows m e then none else some r
  | none => none

/-- The purely structural number shape, following the spec's words: the
same literal grammar with no range check. -/
def pNumberShape (s : List Char) : Option (List Char) :=
  match pNumberParts s with
  | some (_, _, r) => some r
  | none => none

/-- Whether a list starts with the given character (the peek of
serde_json's parser). -/
def headIs (c : Char) : List Char → Bool
  | d :: _ => decide (d = c)
  | [] => false

mutual

/-- Parse one JSON value per serde_json's grammar, returning the
remaining input on success: null, true, false, a number, a string, an
array or an object.  The caller skips leading whitespace.  The depth
argument models serde_json's recursion limit on nested containers; the
fuel argument only bounds recursion and is always called with more fuel
than any run can use.  The chk flag selects the number parse: true for
the faithful serde_json parse with the range check (from_str below),
false for the purely structural shape (structural_json below); every
other grammar rule is shared. -/
def pValue : Bool → Nat → Nat → List Char → Option (List Char)
  | _, 0, _, _ => none
  | chk, fuel + 1, depth, input =>
    match input with
    | [] => none
    | c :: r =>
      if c = 'n' then
        match r with
        | 'u' :: 'l' :: 'l' :: r2 => some r2
        | _ => none
      else if c = 't' then
        match r with
        | 'r' :: 'u' :: 'e' :: r2 => some r2
        | _ => none
      else if c = 'f' then
        match r with
        | 'a' :: 'l' :: 's' :: 'e' :: r2 => some r2
        | _ => none
      else if c = '-' then cond chk (pNumber r) (pNumberShape r)
      else if c.isDigit then cond chk (pNumber (c :: r)) (pNumberShape (c :: r))
      else if c = '"' then pString (r.length + 1) r
      else if c = '[' then
        if depth = 0 then none
        else
          if headIs ']' (skipWs r) then some (skipWs r).tail
          else pArrayElems chk fuel (depth - 1) (skipWs r)
      else if c = '{' then
        if depth = 0 then none
        else
          if headIs '}' (skipWs r) then some (skipWs r).tail
          else pObjectEntries chk fuel (depth - 1) (skipWs r)
      else none

/-- Parse the elements of a non-empty JSON array, starting at a value:
value, then either a comma and more elements or the closing bracket. -/
def pArrayElems : Bool → Nat → Nat → List Char → Option (List Char)
  | _, 0, _, _ => none
  | chk, fuel + 1, depth, input =>
    (pValue chk fuel depth input).bind (fun r =>
      if headIs ',' (skipWs r) then pArrayElems chk fuel depth (skipWs (skipWs r).tail)
      else if headIs ']' (skipWs r) then some (skipWs r).tail
      else none)

/-- Parse the entries of a non-empty JSON object, starting at a key: a
quoted string key, a colon, a value, then either a comma and more
entries or the closing brace.  A key that is not a string, and a
trailing comma, are errors, as in serde_json. -/
def pObjectEntries : Bool → Nat → Nat → List Char → Option (List Char)
  | _, 0, _, _ => none
  | chk, fuel + 1, depth, input =>
    if headIs '"' input then
      (pString (input.tail.length + 1) input.tail).bind (fun r1 =>
        if headIs ':' (skipWs r1) then
          (pValue chk fuel depth (skipWs (skipWs r1).tail)).bind (fun r3 =>
            if headIs ',' (skipWs r3) then pObjectEntries chk fuel depth (skipWs (skipWs r3).tail)
            else if headIs '}' (skipWs r3) then some (skipWs r3).tail
            else none)
        else none)
    else none

end

/-- Embeds serde_json::from_str for a Value used only for its success or
failure: skip whitespace, parse one value (with the numeric range
check) under the default recursion limit on containers, then require
only trailing whitespace.  Fuel is twice the input length plus two,
which exceeds what any run can consume. -/
def from_str (s : List Char) : Option Unit :=
  match pValue true (2 * s.length + 2) 127 (skipWs s) with
  | some r => if skipWs r = [] then some () else none
  | none => none

/-- Follows the spec's words, for comparison with from_str: the purely
structural parse of the text as a JSON value — the identical grammar,
with the numeric range check of serde_json disabled. -/
def structural_json (s : List Char) : Bool :=
  match pValue false (2 * s.length + 2) 127 (skipWs s) with
  | some r => decide (skipWs r = [])
  | none => false

/-- Embeds Editor::validate_json (src/main.rs lines 111-115) as a
function of the text snapshot: true exactly when from_str succeeds; a
parse failure is only the boolean false, never an error. -/
def validate_json (s : List Char) : Bool :=
  (from_str s).isSome

/-- The key codes of the crossterm events the program distinguishes:
character keys and the Backspace, Enter, arrow keys.  Other key codes
fall through every arm of the source's dispatch and of the text area's
modifier-free mappings, so they are not modelled. -/
inductive KeyCode
  | Char (c : Char)
  | Backspace
  | Enter
  | Left
  | Right
  | Up
  | Down
deriving DecidableEq, Repr

/-- Crossterm key modifiers as a set of flags.  The source matches the
modifier value against the constants NONE, ALT and SHIFT, which is an
exact equality test on the whole set. -/
structure KeyModifiers where
  shift : Bool
  ctrl : Bool
  alt : Bool
deriving DecidableEq, Repr

/-- The modifier constant NONE. -/
def KeyModifiers.none : KeyModifiers := ⟨false, false, false⟩

/-- The modifier constant SHIFT. -/
def KeyModifiers.shiftOnly : KeyModifiers := ⟨true, false, false⟩

/-- The modifier constant ALT. -/
def KeyModifiers.altOnly : KeyModifiers := ⟨false, false, true⟩

/-- Crossterm key event kinds. -/
inductive KeyEventKind
  | Press
  | Repeat
  | Release
deriving DecidableEq, Repr

/-- A crossterm key event: code, modifiers and kind. -/
structure KeyEvent where
  code : KeyCode
  modifiers : KeyModifiers
  kind : KeyEventKind
deriving DecidableEq, Repr

/-- Embeds tui_textarea::TextArea: a non-empty list of lines and a
cursor position (row, column). -/
structure TextArea where
  lines : List (List Char)
  cursor : Nat × Nat
deriving DecidableEq, Repr

/-- Embeds TextArea::default: one empty line, cursor at the origin (the
styling it also sets is rendering-only and out of scope). -/
def TextArea.default : TextArea := ⟨[[]], (0, 0)⟩

/-- Line at a row, defaulting to empty (the source indexes the vector
directly; the cursor row is always in range). -/
def TextArea.lineAt (ta : TextArea) (r : Nat) : List Char :=
  ta.lines.getD r []

/-- Embeds TextArea::insert_newline: split the cursor line at the
cursor column and move the cursor to the start of the new line. -/
def TextArea.insert_newline (ta : TextArea) : TextArea :=
  let r := ta.cursor.1
  let col := ta.cursor.2
  let line := ta.lineAt r
  { lines := ta.lines.take r ++ [line.take col, line.drop col] ++ ta.lines.drop (r + 1)
    cursor := (r + 1, 0) }

/-- Embeds TextArea::insert_char: a line feed inserts a line break;
any other character is inserted at the cursor, which advances. -/
def TextArea.insert_char (ta : TextArea) (c : Char) : TextArea :=
  if c = '\n' then ta.insert_newline
  else
    let r := ta.cursor.1
    let col := ta.cursor.2
    let line := ta.lineAt r
    { lines := ta.lines.set r (line.take col ++ c :: line.drop col)
      cursor := (r, col + 1) }

/-- Embeds TextArea::delete_char (the Backspace action): remove the
character before the cursor; at the start of a line join with the
previous line; at the start of the buffer do nothing. -/
def TextArea.delete_char (ta : TextArea) : TextArea :=
  let r := ta.cursor.1
  let col := ta.cursor.2
  if col > 0 then
    let line := ta.lineAt r
    { lines := ta.lines.set r (line.take (col - 1) ++ line.drop col)
      cursor := (r, col - 1) }
  else if r > 0 then
    let prev := ta.lineAt (r - 1)
    let line := ta.lineAt r
    { lines := ta.lines.take (r - 1) ++ [prev ++ line] ++ ta.lines.drop (r + 1)
      cursor := (r - 1, prev.length) }
  else ta

/-- Embeds CursorMove::Up: one row up when one exists, the column
clamped to that line's length; otherwise no move. -/
def TextArea.cursor_up (ta : TextArea) : TextArea :=
  let r := ta.cursor.1
  let col := ta.cursor.2
  if r = 0 then ta
  else { ta with cursor := (r - 1, min col (ta.lineAt (r - 1)).length) }

/-- Embeds CursorMove::Down: one row down when one exists, the column
clamped to that line's length; otherwise no move. -/
def TextArea.cursor_down (ta : TextArea) : TextArea :=
  let r := ta.cursor.1
  let col := ta.cursor.2
  if r + 1 < ta.lines.length then
    { ta with cursor := (r + 1, min col (ta.lineAt (r + 1)).length) }
  else ta

/-- Embeds CursorMove::Back: one column left, wrapping to the end of the
previous line at the start of a line; no move at the buffer start. -/
def TextArea.cursor_back (ta : TextArea) : TextArea :=
  let r := ta.cursor.1
  let col := ta.cursor.2
  if col > 0 then { ta with cursor := (r, col - 1) }
  else if r > 0 then { ta with cursor := (r - 1, (ta.lineAt (r - 1)).length) }
  else ta

/-- Embeds CursorMove::Forward: one column right, wrapping to the start
of the next line at the end of a line; no move at the buffer end. -/
def TextArea.cursor_forward (ta : TextArea) : TextArea :=
  let r := ta.cursor.1
  let col := ta.cursor.2
  if col < (ta.lineAt r).length then { ta with cursor := (r, col + 1) }
  else if r + 1 < ta.lines.length then { ta with cursor := (r + 1, 0) }
  else ta

/-- Embeds TextArea::input for a crossterm key event.  The conversion
from crossterm drops the Shift flag and keeps only Ctrl and Alt, so a
shifted character key inserts its character.  Enter maps to a line
break under any modifiers; character, Backspace and arrow keys act only
without Ctrl and Alt.  The upstream crate's Ctrl- and Alt-chord
editing mappings (Emacs-style) are not modelled; no claim depends on
them, and none of them touches the App state. -/
def TextArea.input (ta : TextArea) (k : KeyEvent) : TextArea :=
  let ctrl := k.modifiers.ctrl
  let alt := k.modifiers.alt
  match k.code with
  | .Enter => ta.insert_newline
  | .Char c => if ctrl || alt then ta else ta.insert_char c
  | .Backspace => if ctrl || alt then ta else ta.delete_char
  | .Up => if ctrl || alt then ta else ta.cursor_up
  | .Down => if ctrl || alt then ta else ta.cursor_down
  | .Left => if ctrl || alt then ta else ta.cursor_back
  | .Right => if ctrl || alt then ta else ta.cursor_forward

/-- Embeds the Editor struct of src/main.rs lines 87-90: a title and a
text area. -/
structure Editor where
  title : String
  text_area : TextArea
deriving DecidableEq, Repr

/-- Embeds Editor::default: the given title and a default text area. -/
def Editor.defaultFor (title : String) : Editor :=
  ⟨title, TextArea.default⟩

/-- Join buffer lines with line feeds. -/
def joinLines : List (List Char) → List Char
  | [] => []
  | [l] => l
  | l :: rest => l ++ '\n' :: joinLines rest

/-- Embeds Editor::text: the lines joined with line feeds. -/
def Editor.text (e : Editor) : List Char :=
  joinLines e.text_area.lines

/-- Embeds the App struct of src/main.rs lines 118-123 (minus the
terminal handle, an external collaborator): the URI editor, the payload
editors and the state. -/
structure App where
  uri_editor : Editor
  payload_editors : List Editor
  state : State
deriving DecidableEq, Repr

/-- Embeds App::new (terminal setup aside): a uri editor, headers and
body payload editors, the initial state. -/
def App.new : App :=
  { uri_editor := Editor.defaultFor "uri"
    payload_editors := [Editor.defaultFor "headers", Editor.defaultFor "body"]
    state := State.new }

/-- Route a key event into the editor at an index of the payload list,
as payload_editors[req_tab_index].text_area.input(key) does.  The
source indexes the vector directly, which would panic out of range;
claim C9 shows the index is always in range from the initial state. -/
def routeToPayload (l : List Editor) (i : Nat) (k : KeyEvent) : List Editor :=
  l.set i (let e := l.getD i (Editor.defaultFor "");
           { e with text_area := e.text_area.input k })

/-- The first dispatch of App::run on a key press: PayloadEditing feeds
the event to the active payload editor, UriEditing to the uri editor,
Normal to no editor. -/
def App.route_edit (a : App) (k : KeyEvent) : App :=
  match a.state.input_mode with
  | .PayloadEditing =>
    { a with payload_editors := routeToPayload a.payload_editors a.state.req_tab_index k }
  | .UriEditing =>
    { a with uri_editor :=
        { a.uri_editor with text_area := a.uri_editor.text_area.input k } }
  | .Normal => a

/-- Whether a key event is the quit chord: a press of the q character
with Alt as the exact modifier set. -/
def isQuitKey (k : KeyEvent) : Bool :=
  decide (k.kind = .Press ∧ k.modifiers = KeyModifiers.altOnly ∧ k.code = .Char 'q')

/-- Embeds one iteration of the key-handling part of App::run
(src/main.rs lines 154-188) on one event: nothing happens unless the
event is a key press; a press is first routed to the focused text area
by mode, then the exact modifier set is matched: with no modifiers and
Normal mode the Right and Left arrows cycle the payload tab; with Alt
alone the q character returns from run (the boolean of the result);
with Shift alone Down advances and Up retreats the input mode. -/
def App.handle_key (a : App) (k : KeyEvent) : App × Bool :=
  if k.kind = .Press then
    let a1 := a.route_edit k
    if k.modifiers = KeyModifiers.none then
      (if a1.state.input_mode = .Normal then
        match k.code with
        | .Right => { a1 with state := a1.state.next_payload }
        | .Left => { a1 with state := a1.state.previous_payload }
        | _ => a1
      else a1, false)
    else if k.modifiers = KeyModifiers.altOnly then
      (a1, decide (k.code = .Char 'q'))
    else if k.modifiers = KeyModifiers.shiftOnly then
      (match k.code with
      | .Down => { a1 with state := { a1.state with input_mode := a1.state.input_mode.next } }
      | .Up => { a1 with state := { a1.state with input_mode := a1.state.input_mode.previous } }
      | _ => a1, false)
    else (a1, false)
  else (a, false)

/-- Embeds the loop of App::run over a list of key events: the loop
blocks on the next event and terminates only by the return inside the
Alt branch; a returned App (some) stands for run returning the success
value Ok of unit with that final state, and none stands for the loop
still waiting on input after the listed events. -/
def App.run : App → List KeyEvent → Option App
  | _, [] => Option.none
  | a, k :: ks =>
    let r := a.handle_key k
    if r.2 then some r.1 else App.run r.1 ks

/-- Fold a list of key events through handle_key, ignoring the return
flag: the state reached after the listed events. -/
def applyKeys (a : App) (ks : List KeyEvent) : App :=
  ks.foldl (fun acc k => (acc.handle_key k).1) a

/-- Whether a key event is one of the two mode-change chords: Shift as
the exact modifier set with the Down or Up arrow. -/
def isModeChangeKey (k : KeyEvent) : Bool :=
  decide (k.modifiers = KeyModifiers.shiftOnly ∧ (k.code = .Down ∨ k.code = .Up))

/-- The reachability invariant for claim C9: the active payload index is
below the number of payload titles, and both the title list and the
editor list have the startup length two. -/
def AppInv (a : App) : Prop :=
  a.state.req_tab_index < a.state.payload_titles.length
    ∧ a.state.payload_titles.length = 2
    ∧ a.payload_editors.length = 2

lemma State.next_payload_titles (s : State) :
    s.next_payload.payload_titles = s.payload_titles := rfl

lemma State.next_payload_iterate (j : Nat) (s : State)
    (h : s.req_tab_index < s.payload_titles.length) :
    (State.next_payload^[j] s).req_tab_index
      = (s.req_tab_index + j) % s.payload_titles.length
      ∧ (State.next_payload^[j] s).payload_titles = s.payload_titles := by
  induction j generalizing s with
  | zero =>
    simpa using (Nat.mod_eq_of_lt h).symm
  | succ n ih =>
    have hlen : (0 : Nat) < s.payload_titles.length := Nat.lt_of_le_of_lt (Nat.zero_le _) h
    have hnext : s.next_payload.req_tab_index < s.next_payload.payload_titles.length := by
      simpa [State.next_payload] using Nat.mod_lt (s.req_tab_index + 1) hlen
    obtain ⟨h1, h2⟩ := ih s.next_payload hnext
    rw [Function.iterate_succ_apply]
    refine ⟨?_, by simpa [State.next_payload] using h2⟩
    rw [h1]
    simp [State.next_payload, Nat.mod_add_mod, Nat.add_assoc, Nat.add_comm 1 n]

/-- C2: for every FocusMode (InputMode in the source), applying advance
(InputMode::next) three times is the identity, and retreat
(InputMode::previous) is the exact two-sided inverse of advance. -/
theorem input_mode_cycle (m : InputMode) :
    m.next.next.next = m ∧ m.next.previous = m ∧ m.previous.next = m := by
  cases m <;> exact ⟨rfl, rfl, rfl⟩

/-- C4: for every tab count k at least 1 and current index below k,
State::next_payload sets the active index to (i + 1) mod k,
State::previous_payload sets it to (i - 1 + k) mod k in integer
arithmetic (so index 0 wraps to k - 1, never a negative value), and
applying next_payload k times returns to the original index. -/
theorem payload_nav_mod_arith (s : State) (k : Nat)
    (hk : s.payload_titles.length = k) (h1 : 1 ≤ k) (hi : s.req_tab_index < k) :
    s.next_payload.req_tab_index = (s.req_tab_index + 1) % k
      ∧ (s.previous_payload.req_tab_index : Int)
          = ((s.req_tab_index : Int) - 1 + (k : Int)) % (k : Int)
      ∧ (State.next_payload^[k] s).req_tab_index = s.req_tab_index := by
  subst hk
  refine ⟨rfl, ?_, ?_⟩
  · rcases Nat.eq_zero_or_pos s.req_tab_index with hz | h0
    · have e1 : (s.req_tab_index : Int) - 1 + (s.payload_titles.length : Int)
          = (s.payload_titles.length : Int) - 1 := by
        rw [hz]
        push_cast
        ring
      rw [e1, Int.emod_eq_of_lt (by omega) (by omega)]
      simp only [State.previous_payload, hz, gt_iff_lt, lt_irrefl, if_neg, Nat.not_lt_zero,
        not_false_iff]
      omega
    · have e1 : ((s.req_tab_index : Int) - 1 + (s.payload_titles.length : Int))
          % (s.payload_titles.length : Int)
          = ((s.req_tab_index : Int) - 1) % (s.payload_titles.length : Int) :=
        by
          have h := Int.add_mul_emod_self_left ((s.req_tab_index : Int) - 1)
            (s.payload_titles.length : Int) 1
          simp only [mul_one] at h
          exact h
      rw [e1, Int.emod_eq_of_lt (by omega) (by omega)]
      simp only [State.previous_payload, gt_iff_lt, h0, if_pos]
      omega
  · obtain ⟨ha, _⟩ := State.next_payload_iterate s.payload_titles.length s hi
    rw [ha, Nat.add_mod_right, Nat.mod_eq_of_lt hi]

/-- Witness for C4 at the concrete state with titles Headers/Body and
active index 0. -/
theorem payload_nav_mod_arith_witness :
    (State.new.next_payload.req_tab_index = (State.new.req_tab_index + 1) % 2
      ∧ (State.new.previous_payload.req_tab_index : Int)
          = ((State.new.req_tab_index : Int) - 1 + (2 : Int)) % (2 : Int)
      ∧ (State.next_payload^[2] State.new).req_tab_index = State.new.req_tab_index) :=
  payload_nav_mod_arith State.new 2 rfl (by decide) (by decide)

lemma matchScheme_eq_true_iff (p : String) (s : List Char) :
    matchScheme p s = true ↔ ∃ t, s = p.toList ++ t ∧ uriTailOk t = true := by
  unfold matchScheme
  split
  · rename_i h
    constructor
    · intro ht
      refine ⟨s.drop p.toList.length, ?_, ht⟩
      conv_lhs => rw [← List.take_append_drop p.toList.length s]
      rw [h]
    · rintro ⟨t, hs, htail⟩
      have hd : s.drop p.toList.length = t := by
        rw [hs]
        exact List.drop_left _ _
      rw [hd]
      exact htail
  · rename_i h
    simp only [Bool.false_eq_true, false_iff]
    rintro ⟨t, hs, -⟩
    exact h (by rw [hs]; exact List.take_left _ _)

lemma uriTailOk_eq_true_iff (t : List Char) :
    uriTailOk t = true ↔ ∃ c1 c2 r, t = c1 :: c2 :: r
      ∧ rsWhitespace c1 = false
      ∧ c1 ∉ (['/', '$', '.', '?', '#'] : List Char)
      ∧ c2 ≠ '\n'
      ∧ ∀ c ∈ r, rsWhitespace c = false := by
  match t with
  | [] => simp [uriTailOk]
  | [c1] => simp [uriTailOk]
  | c1 :: c2 :: r =>
    simp only [uriTailOk, hostFirstOk, Bool.and_eq_true, Bool.not_eq_true',
      decide_eq_true_eq, bne_iff_ne, ne_eq, List.all_eq_true, Bool.not_eq_true']
    constructor
    · rintro ⟨⟨⟨h1, h2⟩, h3⟩, h4⟩
      exact ⟨c1, c2, r, rfl, h1, h2, h3, h4⟩
    · rintro ⟨d1, d2, q, heq, h1, h2, h3, h4⟩
      cases heq
      exact ⟨⟨⟨h1, h2⟩, h3⟩, h4⟩

/-- C1 counterexample: the claim asserts validate_uri of the text
http-colon-slash-slash-a is true, but the regex requires at least two
characters after the scheme separator (the first-character class
followed by the regex dot), so the code returns false. -/
theorem validate_uri_http_a_false :
    validate_uri (String.toList "http://a") = false := by decide

/-- C1 amended: validate_uri returns false when every character of the
text is whitespace (trimmed text empty), and returns true exactly when
the full text is one of the schemes http, https, ftp followed by the
separator, then a character that is neither whitespace nor one of
slash, dollar, dot, question mark, hash, then at least one further
character, the first of which may be anything but a line feed, and all
remaining characters non-whitespace.  In particular the listed examples
hold, except that validate_uri of http-colon-slash-slash-a is false,
not true as claimed. -/
theorem validate_uri_spec_amended :
    (∀ s : List Char,
      ((∀ c ∈ s, rsWhitespace c = true) → validate_uri s = false)
      ∧ (validate_uri s = true ↔ UriPattern s))
    ∧ validate_uri (String.toList "") = false
    ∧ validate_uri (String.toList "   ") = false
    ∧ validate_uri (String.toList "http://example.com/x") = true
    ∧ validate_uri (String.toList "notaurl") = false
    ∧ validate_uri (String.toList "ftp://host/path") = true
    ∧ validate_uri (String.toList "http://a") = false := by
  refine ⟨?_, by decide, by decide, by decide, by decide, by decide, by decide⟩
  intro s
  constructor
  · intro hall
    have h : s.all rsWhitespace = true := List.all_eq_true.mpr hall
    unfold validate_uri
    rw [h]
    rfl
  · unfold validate_uri uriRegexMatch
    constructor
    · intro h
      rw [Bool.and_eq_true, Bool.or_eq_true, Bool.or_eq_true] at h
      obtain ⟨-, hor⟩ := h
      have mk : ∀ p : String, (p = "http://" ∨ p = "https://" ∨ p = "ftp://") →
          matchScheme p s = true → UriPattern s := by
        intro p hp hm
        obtain ⟨t, hs, htail⟩ := (matchScheme_eq_true_iff p s).mp hm
        obtain ⟨c1, c2, r, ht, h1, h2, h3, h4⟩ := (uriTailOk_eq_true_iff t).mp htail
        exact ⟨p, t, hp, hs, c1, c2, r, ht, h1, h2, h3, h4⟩
      rcases hor with hor | hm3
      · rcases hor with hm1 | hm2
        · exact mk "http://" (Or.inl rfl) hm1
        · exact mk "https://" (Or.inr (Or.inl rfl)) hm2
      · exact mk "ftp://" (Or.inr (Or.inr rfl)) hm3
    · rintro ⟨p, t, hp, hs, c1, c2, r, ht, h1, h2, h3, h4⟩
      have htail : uriTailOk t = true :=
        (uriTailOk_eq_true_iff t).mpr ⟨c1, c2, r, ht, h1, h2, h3, h4⟩
      have hm : matchScheme p s = true :=
        (matchScheme_eq_true_iff p s).mpr ⟨t, hs, htail⟩
      have hnot : s.all rsWhitespace = false := by
        rw [Bool.eq_false_iff]
        intro hall
        have hc1 : c1 ∈ s := by
          rw [hs, ht]
          exact List.mem_append_right _ (List.mem_cons_self _ _)
        have := List.all_eq_true.mp hall c1 hc1
        rw [h1] at this
        exact Bool.false_ne_true this
      rw [Bool.and_eq_true, Bool.or_eq_true, Bool.or_eq_true]
      refine ⟨by rw [hnot]; rfl, ?_⟩
      rcases hp with rfl | rfl | rfl
      · exact Or.inl (Or.inl hm)
      · exact Or.inl (Or.inr hm)
      · exact Or.inr hm

/-- Witness for C1 amended: the all-whitespace hypothesis discharged at
the three-space text. -/
theorem validate_uri_spec_amended_witness :
    validate_uri (String.toList "   ") = false :=
  (validate_uri_spec_amended.1 (String.toList "   ")).1 (by decide)

lemma pNumber_toShape (s r : List Char) (h : pNumber s = some r) :
    pNumberShape s = some r := by
  cases hp : pNumberParts s with
  | none => simp [pNumber, hp] at h
  | some t =>
    obtain ⟨m, e, rem⟩ := t
    simp only [pNumber, hp] at h
    split_ifs at h
    simp only [pNumberShape, hp]
    exact h

set_option maxHeartbeats 2000000 in
lemma parse_mono (fuel : Nat) :
    (∀ depth s r, pValue true fuel depth s = some r → pValue false fuel depth s = some r)
    ∧ (∀ depth s r,
        pArrayElems true fuel depth s = some r → pArrayElems false fuel depth s = some r)
    ∧ (∀ depth s r,
        pObjectEntries true fuel depth s = some r → pObjectEntries false fuel depth s = some r) := by
  induction fuel with
  | zero =>
    refine ⟨?_, ?_, ?_⟩ <;> intro depth s r h <;>
      simp [pValue, pArrayElems, pObjectEntries] at h
  | succ n ih =>
    obtain ⟨ihv, iha, iho⟩ := ih
    refine ⟨?_, ?_, ?_⟩
    · intro depth s r h
      cases s with
      | nil => simp [pValue] at h
      | cons c t =>
        simp only [pValue, cond_true] at h
        simp only [pValue, cond_false]
        split_ifs at h ⊢ <;>
          first
          | exact h
          | exact pNumber_toShape _ _ h
          | exact iha _ _ _ h
          | exact iho _ _ _ h
    · intro depth s r h
      simp only [pArrayElems] at h ⊢
      cases hpv : pValue true n depth s with
      | none => rw [hpv] at h; simp at h
      | some r1 =>
        rw [hpv] at h
        rw [ihv _ _ _ hpv]
        simp only [Option.some_bind] at h ⊢
        split_ifs at h ⊢
        · exact iha _ _ _ h
        · exact h
    · intro depth s r h
      simp only [pObjectEntries] at h ⊢
      split_ifs at h ⊢
      cases hps : pString (s.tail.length + 1) s.tail with
      | none => rw [hps] at h; simp at h
      | some r1 =>
        rw [hps] at h
        simp only [Option.some_bind] at h ⊢
        split_ifs at h ⊢
        cases hpv : pValue true n depth (skipWs (skipWs r1).tail) with
        | none => rw [hpv] at h; simp at h
        | some r3 =>
          rw [hpv] at h
          rw [ihv _ _ _ hpv]
          simp only [Option.some_bind] at h ⊢
          split_ifs at h ⊢
          · exact iho _ _ _ h
          · exact h

lemma from_str_structural (s : List Char) (h : (from_str s).isSome = true) :
    structural_json s = true := by
  unfold from_str at h
  unfold structural_json
  split at h
  · rename_i r heq
    rw [(parse_mono (2 * s.length + 2)).1 _ _ _ heq]
    split_ifs at h with hr
    · simp [hr]
    · simp at h
  · simp at h

/-- C8 counterexample: the text 1e999 parses structurally as a JSON
value (a well-formed numeric literal), yet validate_json returns
false, because serde_json rejects a numeric literal whose double value
is not finite (NumberOutOfRange).  The claim asserts validate_json is
true exactly on the texts that parse structurally. -/
theorem validate_json_overflow_cex :
    structural_json (String.toList "1e999") = true
      ∧ validate_json (String.toList "1e999") = false := by
  constructor <;> decide

/-- C8 amended: validate_json is true exactly when serde_json's parse
succeeds, and that parse is a structural parse of a JSON value
(object, array, string, number, boolean or null) combined with a
numeric range check: every text validate_json accepts is structurally
valid, a parse failure is returned only as the boolean false, and the
four listed examples hold as stated; but a structurally valid text
holding a numeric literal whose double value is not finite is
rejected, so validate_json of 1e999 is false. -/
theorem validate_json_spec_amended :
    (∀ s : List Char, validate_json s = (from_str s).isSome)
    ∧ (∀ s : List Char, validate_json s = true → structural_json s = true)
    ∧ validate_json (String.toList "") = false
    ∧ validate_json (['{', '}'] : List Char) = true
    ∧ validate_json (['{', '"', 'a', '"', ':', '1', '}'] : List Char) = true
    ∧ validate_json (['{', 'a', ':', '1', '}'] : List Char) = false
    ∧ structural_json (String.toList "1e999") = true
    ∧ validate_json (String.toList "1e999") = false :=
  ⟨fun _ => rfl, fun s h => from_str_structural s h,
    by decide, by decide, by decide, by decide, by decide, by decide⟩

/-- Witness for C8 amended: the accepted empty object is structurally
valid, by the refinement conjunct applied at that concrete text. -/
theorem validate_json_spec_amended_witness :
    structural_json (['{', '}'] : List Char) = true :=
  validate_json_spec_amended.2.1 (['{', '}'] : List Char) (by decide)

lemma mods_alt_ne_none : KeyModifiers.altOnly ≠ KeyModifiers.none := by decide

lemma mods_shift_ne_none : KeyModifiers.shiftOnly ≠ KeyModifiers.none := by decide

lemma mods_shift_ne_alt : KeyModifiers.shiftOnly ≠ KeyModifiers.altOnly := by decide

lemma route_edit_state (a : App) (k : KeyEvent) : (a.route_edit k).state = a.state := by
  unfold App.route_edit
  split <;> rfl

lemma route_edit_editors_length (a : App) (k : KeyEvent) :
    (a.route_edit k).payload_editors.length = a.payload_editors.length := by
  unfold App.route_edit
  split <;> simp [routeToPayload]

lemma handle_key_uri (a : App) (k : KeyEvent) :
    (a.handle_key k).1.uri_editor
      = (if k.kind = .Press then a.route_edit k else a).uri_editor := by
  obtain ⟨code, mods, kind⟩ := k
  cases kind <;> cases code <;>
    simp only [App.handle_key] <;>
    split_ifs <;> rfl

lemma handle_key_payload_editors (a : App) (k : KeyEvent) :
    (a.handle_key k).1.payload_editors
      = (if k.kind = .Press then a.route_edit k else a).payload_editors := by
  obtain ⟨code, mods, kind⟩ := k
  cases kind <;> cases code <;>
    simp only [App.handle_key] <;>
    split_ifs <;> rfl

lemma handle_key_state_cases (a : App) (k : KeyEvent) :
    (a.handle_key k).1.state = a.state
    ∨ ((a.handle_key k).1.state = a.state.next_payload
        ∧ a.state.input_mode = .Normal ∧ k.kind = .Press
        ∧ k.modifiers = KeyModifiers.none ∧ k.code = .Right)
    ∨ ((a.handle_key k).1.state = a.state.previous_payload
        ∧ a.state.input_mode = .Normal ∧ k.kind = .Press
        ∧ k.modifiers = KeyModifiers.none ∧ k.code = .Left)
    ∨ ((a.handle_key k).1.state = { a.state with input_mode := a.state.input_mode.next }
        ∧ k.modifiers = KeyModifiers.shiftOnly ∧ k.code = .Down)
    ∨ ((a.handle_key k).1.state = { a.state with input_mode := a.state.input_mode.previous }
        ∧ k.modifiers = KeyModifiers.shiftOnly ∧ k.code = .Up) := by
  obtain ⟨code, mods, kind⟩ := k
  have hs := route_edit_state a ⟨code, mods, kind⟩
  cases kind
  case Repeat => exact Or.inl (by simp [App.handle_key])
  case Release => exact Or.inl (by simp [App.handle_key])
  case Press =>
    by_cases h1 : mods = KeyModifiers.none
    · subst h1
      by_cases h2 : a.state.input_mode = .Normal
      · cases code <;>
          first
          | exact Or.inr (Or.inl ⟨by simp [App.handle_key, hs, h2], h2, rfl, rfl, rfl⟩)
          | exact Or.inr (Or.inr (Or.inl
              ⟨by simp [App.handle_key, hs, h2], h2, rfl, rfl, rfl⟩))
          | exact Or.inl (by simp [App.handle_key, hs, h2])
      · exact Or.inl (by simp [App.handle_key, hs, h2])
    · by_cases h3 : mods = KeyModifiers.altOnly
      · subst h3
        exact Or.inl (by simp [App.handle_key, hs, mods_alt_ne_none])
      · by_cases h4 : mods = KeyModifiers.shiftOnly
        · subst h4
          cases code <;>
            first
            | exact Or.inr (Or.inr (Or.inr (Or.inl
                ⟨by simp [App.handle_key, hs, mods_shift_ne_none, mods_shift_ne_alt],
                  rfl, rfl⟩)))
            | exact Or.inr (Or.inr (Or.inr (Or.inr
                ⟨by simp [App.handle_key, hs, mods_shift_ne_none, mods_shift_ne_alt],
                  rfl, rfl⟩)))
            | exact Or.inl (by
                simp [App.handle_key, hs, mods_shift_ne_none, mods_shift_ne_alt])
        · exact Or.inl (by simp [App.handle_key, hs, h1, h3, h4])

lemma editors_unchanged_in_normal (a : App) (k : KeyEvent)
    (h : a.state.input_mode = .Normal) :
    (a.handle_key k).1.uri_editor = a.uri_editor
      ∧ (a.handle_key k).1.payload_editors = a.payload_editors := by
  have hre : a.route_edit k = a := by
    unfold App.route_edit
    rw [h]
  constructor
  · rw [handle_key_uri a k]
    split <;> simp [hre]
  · rw [handle_key_payload_editors a k]
    split <;> simp [hre]

/-- C7: while FocusMode is Normal the key-press dispatch routes no event
to any text area, so every key event (printable character, Backspace or
any other) leaves the URI editor and every payload editor entirely
unchanged, contents included. -/
theorem normal_mode_no_edit (a : App) (k : KeyEvent)
    (h : a.state.input_mode = .Normal) :
    (a.handle_key k).1.uri_editor = a.uri_editor
      ∧ (a.handle_key k).1.payload_editors = a.payload_editors :=
  editors_unchanged_in_normal a k h

/-- Witness for C7 at a concrete Normal-mode app and a character key. -/
theorem normal_mode_no_edit_witness :
    ((⟨Editor.defaultFor "uri",
        [Editor.defaultFor "headers", Editor.defaultFor "body"],
        ⟨["Headers", "Body"], 0, 0, InputMode.Normal⟩⟩ : App).handle_key
          ⟨KeyCode.Char 'z', KeyModifiers.none, KeyEventKind.Press⟩).1.uri_editor
      = (⟨Editor.defaultFor "uri",
          [Editor.defaultFor "headers", Editor.defaultFor "body"],
          ⟨["Headers", "Body"], 0, 0, InputMode.Normal⟩⟩ : App).uri_editor
    ∧ ((⟨Editor.defaultFor "uri",
          [Editor.defaultFor "headers", Editor.defaultFor "body"],
          ⟨["Headers", "Body"], 0, 0, InputMode.Normal⟩⟩ : App).handle_key
            ⟨KeyCode.Char 'z', KeyModifiers.none, KeyEventKind.Press⟩).1.payload_editors
      = (⟨Editor.defaultFor "uri",
          [Editor.defaultFor "headers", Editor.defaultFor "body"],
          ⟨["Headers", "Body"], 0, 0, InputMode.Normal⟩⟩ : App).payload_editors :=
  normal_mode_no_edit _ _ rfl

/-- C6: the active payload tab index changes only on an unmodified Left
or Right arrow press while FocusMode is Normal; in PayloadEditing or
UriEditing no key event (arrows included) changes the tab index. -/
theorem tab_change_only_normal (a : App) (k : KeyEvent) :
    ((a.handle_key k).1.state.req_tab_index ≠ a.state.req_tab_index →
      a.state.input_mode = .Normal ∧ k.kind = .Press
        ∧ k.modifiers = KeyModifiers.none ∧ (k.code = .Left ∨ k.code = .Right))
    ∧ ((a.state.input_mode = .PayloadEditing ∨ a.state.input_mode = .UriEditing) →
      (a.handle_key k).1.state.req_tab_index = a.state.req_tab_index) := by
  have hc := handle_key_state_cases a k
  constructor
  · intro hne
    rcases hc with h | ⟨h, hm, hk, hmod, hcode⟩ | ⟨h, hm, hk, hmod, hcode⟩
        | ⟨h, hmod, hcode⟩ | ⟨h, hmod, hcode⟩
    · exact absurd (by rw [h]) hne
    · exact ⟨hm, hk, hmod, Or.inr hcode⟩
    · exact ⟨hm, hk, hmod, Or.inl hcode⟩
    · exact absurd (by rw [h]) hne
    · exact absurd (by rw [h]) hne
  · intro hmode
    rcases hc with h | ⟨h, hm, hk, hmod, hcode⟩ | ⟨h, hm, hk, hmod, hcode⟩
        | ⟨h, hmod, hcode⟩ | ⟨h, hmod, hcode⟩
    · rw [h]
    · rcases hmode with hP | hP <;> rw [hm] at hP <;> simp at hP
    · rcases hmode with hP | hP <;> rw [hm] at hP <;> simp at hP
    · rw [h]
    · rw [h]

/-- Witness for C6 in the startup UriEditing mode: a Left arrow press
leaves the tab index unchanged. -/
theorem tab_change_only_normal_witness :
    (App.new.handle_key ⟨KeyCode.Left, KeyModifiers.none, KeyEventKind.Press⟩).1.state.req_tab_index
      = App.new.state.req_tab_index :=
  (tab_change_only_normal App.new
    ⟨KeyCode.Left, KeyModifiers.none, KeyEventKind.Press⟩).2 (Or.inr rfl)

lemma handle_key_inv (a : App) (k : KeyEvent) (h : AppInv a) :
    AppInv (a.handle_key k).1 := by
  obtain ⟨hlt, ht2, he2⟩ := h
  have hlen : (a.handle_key k).1.payload_editors.length = 2 := by
    rw [handle_key_payload_editors a k]
    split
    · rw [route_edit_editors_length a k]
      exact he2
    · exact he2
  have hpos : 0 < a.state.payload_titles.length := Nat.lt_of_le_of_lt (Nat.zero_le _) hlt
  rcases handle_key_state_cases a k with hc | ⟨hc, -, -, -, -⟩ | ⟨hc, -, -, -, -⟩
      | ⟨hc, -, -⟩ | ⟨hc, -, -⟩
  · exact ⟨by rw [hc]; exact hlt, by rw [hc]; exact ht2, hlen⟩
  · refine ⟨?_, by rw [hc]; exact ht2, hlen⟩
    rw [hc]
    exact Nat.mod_lt _ hpos
  · refine ⟨?_, by rw [hc]; unfold State.previous_payload; split <;> exact ht2, hlen⟩
    rw [hc]
    unfold State.previous_payload
    split <;> simp <;> omega
  · exact ⟨by rw [hc]; exact hlt, by rw [hc]; exact ht2, hlen⟩
  · exact ⟨by rw [hc]; exact hlt, by rw [hc]; exact ht2, hlen⟩

lemma applyKeys_inv (ks : List KeyEvent) (a : App) (h : AppInv a) :
    AppInv (applyKeys a ks) := by
  induction ks generalizing a with
  | nil => exact h
  | cons k t ih => exact ih (a.handle_key k).1 (handle_key_inv a k h)

/-- C9: starting from the initial app (tab index 0, two payload tabs),
after any sequence of input events the active payload tab index stays
strictly below the length of the payload editor list, which stays two,
so the indexing of payload_editors by req_tab_index in the
PayloadEditing arm is always in range. -/
theorem req_tab_index_in_range (ks : List KeyEvent) :
    (applyKeys App.new ks).state.req_tab_index
        < (applyKeys App.new ks).payload_editors.length
    ∧ (applyKeys App.new ks).payload_editors.length = 2 := by
  have h := applyKeys_inv ks App.new (by constructor <;> simp [App.new, State.new])
  obtain ⟨hlt, ht2, he2⟩ := h
  rw [he2]
  rw [ht2] at hlt
  exact ⟨hlt, rfl⟩

lemma handle_key_snd (a : App) (k : KeyEvent) : (a.handle_key k).2 = isQuitKey k := by
  obtain ⟨code, ⟨ms, mc, ma⟩, kind⟩ := k
  cases kind <;> cases ms <;> cases mc <;> cases ma <;>
    simp [App.handle_key, isQuitKey, KeyModifiers.none, KeyModifiers.altOnly,
      KeyModifiers.shiftOnly]

lemma run_cons (a : App) (k : KeyEvent) (ks : List KeyEvent) :
    App.run a (k :: ks)
      = if isQuitKey k then some (a.handle_key k).1 else App.run (a.handle_key k).1 ks := by
  rw [App.run, handle_key_snd]

lemma run_isSome (a : App) (ks : List KeyEvent) :
    (App.run a ks).isSome = ks.any isQuitKey := by
  induction ks generalizing a with
  | nil => rfl
  | cons k t ih =>
    rw [run_cons, List.any_cons]
    by_cases hq : isQuitKey k = true
    · simp [hq]
    · rw [Bool.not_eq_true] at hq
      simp [hq, ih]

/-- C10: the quit flag of one loop iteration is true exactly for a key
press of the q character with Alt as the exact modifier set, in any
FocusMode; on such an event the loop returns at once with the success
value and the state just computed, and over any event list the loop has
returned if and only if some event in the list is the quit chord. -/
theorem quit_only_on_alt_q (a : App) (k : KeyEvent) (ks : List KeyEvent) :
    ((a.handle_key k).2 = isQuitKey k)
    ∧ (App.run a (k :: ks)
        = if isQuitKey k then some (a.handle_key k).1 else App.run (a.handle_key k).1 ks)
    ∧ ((App.run a ks).isSome = ks.any isQuitKey) :=
  ⟨handle_key_snd a k, run_cons a k ks, run_isSome a ks⟩

/-- C3 counterexample: in the startup UriEditing mode, a press of the
character A with Shift as the modifier set changes the URI field
content, because the key-press is routed to the focused text area
before modifiers are examined and the text area conversion drops the
Shift flag.  The claim asserts no field content changes on any
Shift-modified character key. -/
theorem shift_char_edits_uri_field :
    (App.new.handle_key
        ⟨KeyCode.Char 'A', KeyModifiers.shiftOnly, KeyEventKind.Press⟩).1.uri_editor.text_area.lines
      ≠ App.new.uri_editor.text_area.lines := by decide

lemma getD_set_self {α : Type} (l : List α) (i : Nat) (x d : α) (h : i < l.length) :
    (l.set i x).getD i d = x := by
  induction l generalizing i with
  | nil => simp at h
  | cons e t ih =>
    cases i with
    | zero => rfl
    | succ j => exact ih j (Nat.lt_of_succ_lt_succ h)

/-- C3 amended: Shift is the mode-cycling modifier (Shift plus Down
advances the FocusMode and Shift plus Up retreats it, in any mode), and
in Normal mode a Shift-modified key changes no field; but in UriEditing
and PayloadEditing every key press is first forwarded to the focused
text area, whose event conversion drops the Shift flag, so a character
key with Shift as the modifier set inserts its character into the
focused field: the URI field in UriEditing, the payload field at the
active (in-range) tab index in PayloadEditing. -/
theorem shift_key_routing_amended :
    (∀ (a : App) (k : KeyEvent), k.modifiers.shift = true →
      a.state.input_mode = .Normal →
      (a.handle_key k).1.uri_editor = a.uri_editor
        ∧ (a.handle_key k).1.payload_editors = a.payload_editors)
    ∧ (∀ (a : App) (c : Char), a.state.input_mode = .UriEditing →
      (a.handle_key ⟨.Char c, KeyModifiers.shiftOnly, .Press⟩).1.uri_editor.text_area
        = a.uri_editor.text_area.insert_char c)
    ∧ (∀ (a : App) (c : Char), a.state.input_mode = .PayloadEditing →
      a.state.req_tab_index < a.payload_editors.length →
      ((a.handle_key ⟨.Char c, KeyModifiers.shiftOnly, .Press⟩).1.payload_editors.getD
          a.state.req_tab_index (Editor.defaultFor "")).text_area
        = (a.payload_editors.getD a.state.req_tab_index
            (Editor.defaultFor "")).text_area.insert_char c)
    ∧ (∀ a : App,
      (a.handle_key ⟨.Down, KeyModifiers.shiftOnly, .Press⟩).1.state.input_mode
          = a.state.input_mode.next
      ∧ (a.handle_key ⟨.Up, KeyModifiers.shiftOnly, .Press⟩).1.state.input_mode
          = a.state.input_mode.previous) := by
  refine ⟨?_, ?_, ?_, ?_⟩
  · intro a k _ h
    exact editors_unchanged_in_normal a k h
  · intro a c h
    simp [App.handle_key, App.route_edit, h, TextArea.input,
      mods_shift_ne_none, mods_shift_ne_alt,
      show KeyModifiers.shiftOnly.ctrl = false from rfl,
      show KeyModifiers.shiftOnly.alt = false from rfl]
  · intro a c h hi
    have hstep : (a.handle_key ⟨.Char c, KeyModifiers.shiftOnly, .Press⟩).1.payload_editors
        = routeToPayload a.payload_editors a.state.req_tab_index
            ⟨.Char c, KeyModifiers.shiftOnly, .Press⟩ := by
      rw [handle_key_payload_editors]
      simp [App.route_edit, h]
    rw [hstep, routeToPayload, getD_set_self _ _ _ _ hi]
    simp [TextArea.input,
      show KeyModifiers.shiftOnly.ctrl = false from rfl,
      show KeyModifiers.shiftOnly.alt = false from rfl]
  · intro a
    constructor <;>
      simp [App.handle_key, route_edit_state, mods_shift_ne_none, mods_shift_ne_alt]

/-- Witness for C3 amended: Shift plus A in the startup UriEditing mode
inserts the character A into the URI field, and Shift plus B in a
PayloadEditing state with the headers tab active inserts the character
B into the headers field. -/
theorem shift_key_routing_amended_witness :
    ((App.new.handle_key
        ⟨KeyCode.Char 'A', KeyModifiers.shiftOnly, KeyEventKind.Press⟩).1.uri_editor.text_area
      = App.new.uri_editor.text_area.insert_char 'A')
    ∧ (((⟨Editor.defaultFor "uri",
          [Editor.defaultFor "headers", Editor.defaultFor "body"],
          ⟨["Headers", "Body"], 0, 0, InputMode.PayloadEditing⟩⟩ : App).handle_key
            ⟨KeyCode.Char 'B', KeyModifiers.shiftOnly, KeyEventKind.Press⟩).1.payload_editors.getD
          0 (Editor.defaultFor "")).text_area
      = ((⟨Editor.defaultFor "uri",
          [Editor.defaultFor "headers", Editor.defaultFor "body"],
          ⟨["Headers", "Body"], 0, 0, InputMode.PayloadEditing⟩⟩ : App).payload_editors.getD
          0 (Editor.defaultFor "")).text_area.insert_char 'B' :=
  ⟨shift_key_routing_amended.2.1 App.new 'A' rfl,
   shift_key_routing_amended.2.2.1
     (⟨Editor.defaultFor "uri",
       [Editor.defaultFor "headers", Editor.defaultFor "body"],
       ⟨["Headers", "Body"], 0, 0, InputMode.PayloadEditing⟩⟩ : App) 'B' rfl (by decide)⟩

lemma input_modekey_lines (k : KeyEvent) (h : isModeChangeKey k = true) (ta : TextArea) :
    (ta.input k).lines = ta.lines := by
  obtain ⟨code, mods, kind⟩ := k
  rw [isModeChangeKey] at h
  simp only [decide_eq_true_eq] at h
  obtain ⟨hm, hc⟩ := h
  subst hm
  rcases hc with rfl | rfl <;>
    simp only [TextArea.input, TextArea.cursor_down, TextArea.cursor_up,
      KeyModifiers.shiftOnly, Bool.or_self] <;>
    split_ifs <;> rfl

lemma routeToPayload_map_lines (k : KeyEvent)
    (h : ∀ ta : TextArea, (ta.input k).lines = ta.lines) :
    ∀ (l : List Editor) (i : Nat),
      (routeToPayload l i k).map (fun e => e.text_area.lines)
        = l.map (fun e => e.text_area.lines) := by
  intro l
  induction l with
  | nil => intro i; rfl
  | cons e t ih =>
    intro i
    cases i with
    | zero => simp [routeToPayload, h]
    | succ j =>
      have hstep : routeToPayload (e :: t) (j + 1) k = e :: routeToPayload t j k := by
        simp [routeToPayload]
      rw [hstep]
      simp only [List.map_cons, ih j]

lemma handle_key_modekey_preserves (a : App) (k : KeyEvent)
    (h : isModeChangeKey k = true) :
    (a.handle_key k).1.uri_editor.text_area.lines = a.uri_editor.text_area.lines
    ∧ (a.handle_key k).1.payload_editors.map (fun e => e.text_area.lines)
        = a.payload_editors.map (fun e => e.text_area.lines)
    ∧ (a.handle_key k).1.state.req_tab_index = a.state.req_tab_index := by
  have hta : ∀ ta : TextArea, (ta.input k).lines = ta.lines :=
    fun ta => input_modekey_lines k h ta
  refine ⟨?_, ?_, ?_⟩
  · rw [handle_key_uri a k]
    split
    · unfold App.route_edit
      split <;> simp [hta]
    · rfl
  · rw [handle_key_payload_editors a k]
    split
    · unfold App.route_edit
      split <;> simp [routeToPayload_map_lines k hta]
    · rfl
  · rcases handle_key_state_cases a k with hc | ⟨-, -, -, hmod, -⟩ | ⟨-, -, -, hmod, -⟩
        | ⟨hc, -, -⟩ | ⟨hc, -, -⟩
    · rw [hc]
    · rw [isModeChangeKey] at h
      simp only [decide_eq_true_eq] at h
      rw [h.1] at hmod
      exact absurd hmod mods_shift_ne_none
    · rw [isModeChangeKey] at h
      simp only [decide_eq_true_eq] at h
      rw [h.1] at hmod
      exact absurd hmod mods_shift_ne_none
    · rw [hc]
    · rw [hc]

/-- C5 counterexample: after reaching PayloadEditing and typing the
character a, a line break and the character b into the headers field
(content two lines, cursor at the end of the second line), a Shift plus
Up then Shift plus Down switch focus away to Normal and back to
PayloadEditing on the same tab with the content intact, but the cursor
has moved from the second line to the first, because the mode-change
keystroke is also delivered to the focused text area as an arrow key.
The claim asserts the exact prior cursor state is preserved. -/
theorem mode_key_moves_cursor_cex :
    ((applyKeys App.new
        [⟨KeyCode.Down, KeyModifiers.shiftOnly, KeyEventKind.Press⟩,
         ⟨KeyCode.Down, KeyModifiers.shiftOnly, KeyEventKind.Press⟩,
         ⟨KeyCode.Char 'a', KeyModifiers.none, KeyEventKind.Press⟩,
         ⟨KeyCode.Enter, KeyModifiers.none, KeyEventKind.Press⟩,
         ⟨KeyCode.Char 'b', KeyModifiers.none, KeyEventKind.Press⟩]).state.input_mode
        = InputMode.PayloadEditing
      ∧ (applyKeys App.new
        [⟨KeyCode.Down, KeyModifiers.shiftOnly, KeyEventKind.Press⟩,
         ⟨KeyCode.Down, KeyModifiers.shiftOnly, KeyEventKind.Press⟩,
         ⟨KeyCode.Char 'a', KeyModifiers.none, KeyEventKind.Press⟩,
         ⟨KeyCode.Enter, KeyModifiers.none, KeyEventKind.Press⟩,
         ⟨KeyCode.Char 'b', KeyModifiers.none, KeyEventKind.Press⟩]).state.req_tab_index = 0
      ∧ ((applyKeys App.new
        [⟨KeyCode.Down, KeyModifiers.shiftOnly, KeyEventKind.Press⟩,
         ⟨KeyCode.Down, KeyModifiers.shiftOnly, KeyEventKind.Press⟩,
         ⟨KeyCode.Char 'a', KeyModifiers.none, KeyEventKind.Press⟩,
         ⟨KeyCode.Enter, KeyModifiers.none, KeyEventKind.Press⟩,
         ⟨KeyCode.Char 'b', KeyModifiers.none, KeyEventKind.Press⟩]).payload_editors.getD 0
          (Editor.defaultFor "")).text_area = ⟨[['a'], ['b']], (1, 1)⟩)
    ∧ ((applyKeys App.new
        [⟨KeyCode.Down, KeyModifiers.shiftOnly, KeyEventKind.Press⟩,
         ⟨KeyCode.Down, KeyModifiers.shiftOnly, KeyEventKind.Press⟩,
         ⟨KeyCode.Char 'a', KeyModifiers.none, KeyEventKind.Press⟩,
         ⟨KeyCode.Enter, KeyModifiers.none, KeyEventKind.Press⟩,
         ⟨KeyCode.Char 'b', KeyModifiers.none, KeyEventKind.Press⟩,
         ⟨KeyCode.Up, KeyModifiers.shiftOnly, KeyEventKind.Press⟩,
         ⟨KeyCode.Down, KeyModifiers.shiftOnly, KeyEventKind.Press⟩]).state.input_mode
        = InputMode.PayloadEditing
      ∧ (applyKeys App.new
        [⟨KeyCode.Down, KeyModifiers.shiftOnly, KeyEventKind.Press⟩,
         ⟨KeyCode.Down, KeyModifiers.shiftOnly, KeyEventKind.Press⟩,
         ⟨KeyCode.Char 'a', KeyModifiers.none, KeyEventKind.Press⟩,
         ⟨KeyCode.Enter, KeyModifiers.none, KeyEventKind.Press⟩,
         ⟨KeyCode.Char 'b', KeyModifiers.none, KeyEventKind.Press⟩,
         ⟨KeyCode.Up, KeyModifiers.shiftOnly, KeyEventKind.Press⟩,
         ⟨KeyCode.Down, KeyModifiers.shiftOnly, KeyEventKind.Press⟩]).state.req_tab_index = 0
      ∧ ((applyKeys App.new
        [⟨KeyCode.Down, KeyModifiers.shiftOnly, KeyEventKind.Press⟩,
         ⟨KeyCode.Down, KeyModifiers.shiftOnly, KeyEventKind.Press⟩,
         ⟨KeyCode.Char 'a', KeyModifiers.none, KeyEventKind.Press⟩,
         ⟨KeyCode.Enter, KeyModifiers.none, KeyEventKind.Press⟩,
         ⟨KeyCode.Char 'b', KeyModifiers.none, KeyEventKind.Press⟩,
         ⟨KeyCode.Up, KeyModifiers.shiftOnly, KeyEventKind.Press⟩,
         ⟨KeyCode.Down, KeyModifiers.shiftOnly, KeyEventKind.Press⟩]).payload_editors.getD 0
          (Editor.defaultFor "")).text_area = ⟨[['a'], ['b']], (0, 1)⟩)
    ∧ (((1, 1) : Nat × Nat) ≠ ((0, 1) : Nat × Nat)) := by decide

/-- C5 amended: over any sequence of mode-change key events (Shift plus
Down or Shift plus Up), every field's content (its lines) and the
active tab index are preserved, so returning to a field finds its exact
prior content; the cursor, however, is only preserved up to the arrow
moves the mode-change keystrokes themselves apply to the field focused
at that moment. -/
theorem mode_keys_preserve_content (a : App) (ks : List KeyEvent)
    (hall : ∀ k ∈ ks, isModeChangeKey k = true) :
    (applyKeys a ks).uri_editor.text_area.lines = a.uri_editor.text_area.lines
    ∧ (applyKeys a ks).payload_editors.map (fun e => e.text_area.lines)
        = a.payload_editors.map (fun e => e.text_area.lines)
    ∧ (applyKeys a ks).state.req_tab_index = a.state.req_tab_index := by
  induction ks generalizing a with
  | nil => exact ⟨rfl, rfl, rfl⟩
  | cons k t ih =>
    have hk := hall k (List.mem_cons_self k t)
    have ht : ∀ x ∈ t, isModeChangeKey x = true :=
      fun x hx => hall x (List.mem_cons_of_mem _ hx)
    have h1 := handle_key_modekey_preserves a k hk
    have h2 := ih (a.handle_key k).1 ht
    rw [applyKeys] at h2 ⊢
    rw [List.foldl_cons]
    exact ⟨h2.1.trans h1.1, h2.2.1.trans h1.2.1, h2.2.2.trans h1.2.2⟩

/-- Witness for C5 amended: one Shift plus Down event from the startup
state preserves all field contents and the tab index. -/
theorem mode_keys_preserve_content_witness :
    (applyKeys App.new
        [⟨KeyCode.Down, KeyModifiers.shiftOnly, KeyEventKind.Press⟩]).uri_editor.text_area.lines
      = App.new.uri_editor.text_area.lines
    ∧ (applyKeys App.new
        [⟨KeyCode.Down, KeyModifiers.shiftOnly, KeyEventKind.Press⟩]).payload_editors.map
          (fun e => e.text_area.lines)
      = App.new.payload_editors.map (fun e => e.text_area.lines)
    ∧ (applyKeys App.new
        [⟨KeyCode.Down, KeyModifiers.shiftOnly, KeyEventKind.Press⟩]).state.req_tab_index
      = App.new.state.req_tab_index :=
  mode_keys_preserve_content App.new
    [⟨KeyCode.Down, KeyModifiers.shiftOnly, KeyEventKind.Press⟩] (by decide)

end CurlRs
